import Mathlib

/-!
Verification of the gemini-tales pipeline core: the event transcoder
(`event_generator` in `src/app/main.py`), the markup extractor
(`extract_google_html`), the escalation checker and research loop
(`src/backend/agents/orchestrator/agent.py`), the stage-RPC error path
(`query_adk_sever`), and the authenticated-client cache (`get_client`).
Events are JSON-like values, modelled by the inductive `JVal`.
-/

/-- JSON-like values, as produced by parsing the server-sent events.
Numbers are modelled as integers (no claim depends on non-integral numbers). -/
inductive JVal where
  | null
  | bool (b : Bool)
  | num (n : Int)
  | str (s : String)
  | arr (xs : List JVal)
  | obj (kvs : List (String × JVal))

/-- Python truthiness of a JSON value: None, False, 0, empty string,
empty list and empty dict are falsy, everything else truthy. -/
def JVal.truthy : JVal → Bool
  | .null => false
  | .bool b => b
  | .num n => n != 0
  | .str s => s != ""
  | .arr xs => !xs.isEmpty
  | .obj kvs => !kvs.isEmpty

/-- Truthiness of `data.get(key)`: a missing key (None) is falsy. -/
def truthyOpt : Option JVal → Bool
  | none => false
  | some v => v.truthy

/-- `data.get(key)` on a dict: first binding of the key, if any. -/
def assocGet : List (String × JVal) → String → Option JVal
  | [], _ => none
  | kv :: rest, k => if kv.1 == k then some kv.2 else assocGet rest k

/-- `data.get(key)` followed by a truthiness test, as in
`if data.get(key): return data.get(key)`: yields the value only when truthy. -/
def getTruthy (kvs : List (String × JVal)) (k : String) : Option JVal :=
  match assocGet kvs k with
  | some v => if v.truthy then some v else none
  | none => none

/-- Python `a or b` on two optional values: the first if truthy, else the second. -/
def pyOr (a b : Option JVal) : Option JVal :=
  if truthyOpt a then a else b

mutual
/-- `extract_google_html` from `src/app/main.py` lines 196-211 (identical in
`src/backend/app/main.py` lines 191-206): on a dict, try the two direct
spellings, then the two spellings one level under a grounding-metadata field,
then recurse depth-first into every dict-valued field; non-dicts yield None. -/
def extract_google_html : JVal → Option JVal
  | JVal.obj kvs =>
    match getTruthy kvs "rendered_content" with
    | some v => some v
    | none =>
      match getTruthy kvs "renderedContent" with
      | some v => some v
      | none =>
        match pyOr (assocGet kvs "grounding_metadata") (assocGet kvs "groundingMetadata") with
        | some (JVal.obj gkvs) =>
          let rc := pyOr (assocGet gkvs "rendered_content") (assocGet gkvs "renderedContent")
          if truthyOpt rc then rc else searchNested kvs
        | _ => searchNested kvs
  | _ => none

/-- The recursive tail of `extract_google_html`: scan the dict values in order,
descending into dict-valued fields, returning the first truthy result. -/
def searchNested : List (String × JVal) → Option JVal
  | [] => none
  | (_, v) :: rest =>
    match v with
    | JVal.obj kvs =>
      match extract_google_html (JVal.obj kvs) with
      | some r => if r.truthy then some r else searchNested rest
      | none => searchNested rest
    | _ => searchNested rest
end

/-- Characters removed by the Python `str.strip()` default whitespace set
(ASCII: space, tab, newline, carriage return, vertical tab, form feed). -/
def isPySpace (c : Char) : Bool :=
  c == ' ' || c == '\t' || c == '\n' || c == '\r' || c == Char.ofNat 11 || c == Char.ofNat 12

/-- Python `cs.strip()` at the character-list level: drop whitespace from both ends. -/
def pyStripList (cs : List Char) : List Char :=
  ((cs.dropWhile isPySpace).reverse.dropWhile isPySpace).reverse

/-- Python `text.strip()`. -/
def pyStrip (s : String) : String :=
  ⟨pyStripList s.data⟩

/-- The technical-payload filter from `event_generator`
(`src/app/main.py` line 238): stripped text starting with a brace or with
three dashes and a brace, or text containing the literal `Feedback:` marker. -/
def is_technical (text : String) : Bool :=
  ("\x7b".data.isPrefixOf (pyStrip text).data) ||
  ("---\x7b".data.isPrefixOf (pyStrip text).data) ||
  (decide ("Feedback:".data <:+: text.data))

/-- Python `part.get("thought") == True`: true for JSON `true` and, by Python
numeric-boolean equality, for the number 1. -/
def pyEqTrue : Option JVal → Bool
  | some (JVal.bool b) => b
  | some (JVal.num n) => n == 1
  | _ => false

/-- Whether a part carries the internal-reasoning flag
(`part.get("thought") == True`). Non-dict parts carry no flag. -/
def isThoughtPart : JVal → Bool
  | JVal.obj kvs => pyEqTrue (assocGet kvs "thought")
  | _ => false

/-- `event.get("author")` as a string; a missing or non-string author compares
unequal to every author name in the source, so it is modelled as none. -/
def authorStr : JVal → Option String
  | JVal.obj kvs =>
    match assocGet kvs "author" with
    | some (JVal.str s) => some s
    | _ => none
  | _ => none

/-- `part.get("text")` as a string. A present non-string truthy value would
raise at `text.strip()` in the source; such parts are modelled as textless. -/
def partText : JVal → Option String
  | JVal.obj kvs =>
    match assocGet kvs "text" with
    | some (JVal.str s) => some s
    | _ => none
  | _ => none

/-- The author allow-list of the accumulation step
(`src/app/main.py` line 241): `author in ["content_builder", "gemini_tales_pipeline"]`. -/
def allowAuthor (author : Option String) : Bool :=
  author == some "content_builder" || author == some "gemini_tales_pipeline"

/-- `event["content"].get("parts", [])` guarded by
`if "content" in event and event["content"]:`. A truthy non-dict content or a
non-list parts value would raise in the source; both are modelled as no parts. -/
def partsOf : JVal → List JVal
  | JVal.obj kvs =>
    match assocGet kvs "content" with
    | some c =>
      if c.truthy then
        match c with
        | JVal.obj ckvs =>
          match assocGet ckvs "parts" with
          | some (JVal.arr xs) => xs
          | _ => []
        | _ => []
      else []
    | none => []
  | _ => []

/-- Text contributed by one part to the running accumulator, following the
filter chain of `event_generator` lines 230-242: drop flagged parts, drop
falsy text, drop technical payloads, and keep only allow-listed authors. -/
def partContribution (author : Option String) (part : JVal) : String :=
  if isThoughtPart part then ""
  else
    match partText part with
    | none => ""
    | some text =>
      if text == "" then ""
      else if is_technical text then ""
      else if allowAuthor author then text else ""

/-- Concatenation of a list of strings in order, as repeated `+=`. -/
def strJoin : List String → String
  | [] => ""
  | a :: l => a ++ strJoin l

/-- Text appended to the accumulator by one whole event. -/
def eventText (ev : JVal) : String :=
  strJoin ((partsOf ev).map (partContribution (authorStr ev)))

/-- One outbound NDJSON record of the chat stream: either
`{"type":"progress","text":...}` or `{"type":"result","text":...,"rendered_content":...}`. -/
inductive Record where
  | progress (text : String)
  | result (text : String) (rendered_content : Option JVal)

/-- The fixed status line announcing markup discovery. -/
def discoveryText : String := "🔍 Google Search sources found..."

/-- The placeholder substituted for an empty or whitespace-only accumulator. -/
def placeholderText : String := "The story is taking shape..."

/-- Mutable state of `event_generator` while consuming the event sequence. -/
structure TState where
  final_text : String
  rendered_content : Option JVal
  recs : List Record

def initTState : TState := ⟨"", none, []⟩

/-- Step 1 of `event_generator` (`src/app/main.py` lines 213-217): capture the
extracted markup first-writer-wins (`if rc and not rendered_content`) and emit
the discovery progress record on capture. -/
def markupStep (st : TState) (ev : JVal) : TState :=
  let rc := extract_google_html ev
  if truthyOpt rc && !truthyOpt st.rendered_content then
    { st with rendered_content := rc, recs := st.recs ++ [Record.progress discoveryText] }
  else st

/-- The per-stage progress records an author triggers
(`src/app/main.py` lines 220-225). -/
def stageRecs (author : Option String) : List Record :=
  if author == some "researcher" then [Record.progress "🔍 Adventure Seeker is scouting..."]
  else if author == some "judge" then [Record.progress "⚖️ Guardian is checking safety..."]
  else if author == some "content_builder" then [Record.progress "✍️ Storysmith is writing..."]
  else []

/-- Step 2 of `event_generator`: emit the progress line of a recognized author. -/
def progressStep (st : TState) (ev : JVal) : TState :=
  { st with recs := st.recs ++ stageRecs (authorStr ev) }

/-- Step 3 of `event_generator` (lines 228-242): accumulate the filtered text. -/
def accumStep (st : TState) (ev : JVal) : TState :=
  { st with final_text := st.final_text ++ eventText ev }

/-- Processing of a single event by `event_generator`
(`src/app/main.py` lines 191-242): capture markup first-writer-wins and emit
the discovery line, emit the per-stage progress line, then accumulate part text. -/
def processEvent (st : TState) (ev : JVal) : TState :=
  accumStep (progressStep (markupStep st ev) ev) ev

/-- State after consuming a whole event sequence. -/
def runState (events : List JVal) : TState :=
  events.foldl processEvent initTState

/-- The full outbound record stream of `event_generator`: the progress records
emitted while consuming the events, then the single final result record, with
the placeholder substituted when the accumulator strips to empty
(`src/app/main.py` lines 244-249). -/
def event_generator (events : List JVal) : List Record :=
  let st := runState events
  let ft := if pyStrip st.final_text == "" then placeholderText else st.final_text
  st.recs ++ [Record.result (pyStrip ft) st.rendered_content]

/-- The text of the final result record of an output stream, if any. -/
def resultText (recs : List Record) : Option String :=
  match recs.getLast? with
  | some (Record.result t _) => some t
  | _ => none

/-- The captured markup of the final result record of an output stream, if any. -/
def resultRendered (recs : List Record) : Option (Option JVal) :=
  match recs.getLast? with
  | some (Record.result _ r) => some r
  | _ => none

/-- Whether a record is the markup-discovery progress record. -/
def isDiscovery : Record → Bool
  | Record.progress t => t == discoveryText
  | _ => false

/-- Number of markup-discovery progress records in an output stream. -/
def discoveryCount (recs : List Record) : Nat :=
  (recs.filter isDiscovery).length

/-- The markup value an event contributes under the condition
`if rc and not rendered_content`: the extracted value when truthy. -/
def truthyFind (ev : JVal) : Option JVal :=
  match extract_google_html ev with
  | some r => if r.truthy then some r else none
  | none => none

/-! Orchestrator: escalation checker and research loop
(`src/backend/agents/orchestrator/agent.py`). -/

/-- The literal pass-status marker of the raw-text heuristic
(`src/backend/agents/orchestrator/agent.py` line 91). -/
def pass_marker : String := "\"status\": \"pass\""

/-- The pass decision of `EscalationChecker._run_async_impl`
(lines 86-92): a dict feedback passes when its status field equals the string
`pass`; a string feedback passes when it contains the literal marker
`"status": "pass"`; anything else (missing key included) does not pass. -/
def is_pass (feedback : Option JVal) : Bool :=
  match feedback with
  | some (JVal.obj kvs) =>
    match assocGet kvs "status" with
    | some (JVal.str s) => s == "pass"
    | _ => false
  | some (JVal.str s) => decide (pass_marker.data <:+: s.data)
  | _ => false

/-- `max_iterations` of the research loop (`agent.py` line 110). -/
def max_iterations : Nat := 3

/-- One stage execution in the pipeline trace. The checker records whether it
escalated. -/
inductive StageCall where
  | researcher
  | judge
  | checker (escalated : Bool)
  | builder
deriving DecidableEq

/-- Modelled from the spec: the LoopAgent driver of `research_loop` is library
code outside this repository; per the spec it runs the sub-agent sequence
Researcher, Judge, EscalationChecker up to `max_iterations` times, ending
early when the checker escalates. The judge output stored under
`judge_feedback` at iteration `i` is supplied by the oracle `f`; the checker
decision is `is_pass`, taken from the source. -/
def loopTrace (f : Nat → JVal) : Nat → Nat → List StageCall
  | _, 0 => []
  | i, rem + 1 =>
    let p := is_pass (some (f i))
    [StageCall.researcher, StageCall.judge, StageCall.checker p] ++
      (if p then [] else loopTrace f (i + 1) rem)

/-- Modelled from the spec: the SequentialAgent driver of `root_agent` is
library code outside this repository; per the spec it runs the research loop
and then the builder stage once, unconditionally. -/
def pipelineTrace (f : Nat → JVal) : List StageCall :=
  loopTrace f 0 max_iterations ++ [StageCall.builder]

/-- The name of the root pipeline agent (`agent.py` line 115). -/
def root_agent_name : String := "course_creation_pipeline"

/-! Stage RPC error path (`query_adk_sever`, `src/app/main.py` lines 116-151). -/

/-- Outcome of the `run_sse` POST: an error response with its body text, or a
stream of parsed server-sent events. -/
inductive SSEResponse where
  | error (details : String)
  | ok (events : List JVal)

/-- The single error event synthesized by `query_adk_sever` on an error
response (lines 136-147). -/
def mkErrorEvent (agent_name details : String) : JVal :=
  JVal.obj [("author", JVal.str agent_name),
            ("content", JVal.obj [("parts",
              JVal.arr [JVal.obj [("text", JVal.str ("Error " ++ details))]])])]

/-- The event stream yielded by `query_adk_sever`: on an error response,
exactly the one synthesized error event; otherwise the upstream events. -/
def query_adk_sever (agent_name : String) (resp : SSEResponse) : List JVal :=
  match resp with
  | SSEResponse.error details => [mkErrorEvent agent_name details]
  | SSEResponse.ok events => events

/-! Authenticated client cache (`get_client`, `src/app/main.py` lines 62-68,
identical in `src/backend/app/main.py` lines 57-63). Clients are modelled by
the creation counter value at the time `create_authenticated_client` runs. -/

/-- The module-level `clients` dict plus a counter of client creations. -/
structure ClientCache where
  clients : List (String × Nat)
  created : Nat

def emptyCache : ClientCache := ⟨[], 0⟩

/-- Lookup in the cache dict. -/
def cacheGet (st : ClientCache) (origin : String) : Option Nat :=
  (st.clients.find? (fun kv => kv.1 == origin)).map (fun kv => kv.2)

/-- `get_client`: create and store a client only when the origin is absent,
then return the stored client. The Bool reports whether a creation happened. -/
def get_client (st : ClientCache) (origin : String) : Nat × ClientCache × Bool :=
  match cacheGet st origin with
  | some c => (c, st, false)
  | none => (st.created, ⟨st.clients ++ [(origin, st.created)], st.created + 1⟩, true)

/-- A sequence of `get_client` calls, logging each origin with the returned
client and whether the call created one. -/
def runGets (st : ClientCache) : List String → ClientCache × List (String × Nat × Bool)
  | [] => (st, [])
  | origin :: rest =>
    let (c, st', created) := get_client st origin
    let (stFin, log) := runGets st' rest
    (stFin, (origin, c, created) :: log)

/-- Number of creations for one origin in a call log. -/
def creationsFor (origin : String) (log : List (String × Nat × Bool)) : Nat :=
  (log.filter (fun e => e.1 == origin && e.2.2)).length

/-- Invariant of the captured-markup slot: when set, the stored value is truthy. -/
def renderedOk (o : Option JVal) : Prop :=
  ∀ r, o = some r → r.truthy

/-- Removal of flagged parts inside a parts list (identity off lists). -/
def dropInParts : JVal → JVal
  | JVal.arr xs => JVal.arr (xs.filter (fun p => !isThoughtPart p))
  | v => v

/-- Removal of flagged parts inside a content value (identity off dicts). -/
def dropInContent : JVal → JVal
  | JVal.obj ckvs =>
    JVal.obj (ckvs.map (fun kv => if kv.1 == "parts" then (kv.1, dropInParts kv.2) else kv))
  | v => v

/-- An event with every internal-reasoning part deleted from its content. -/
def dropThoughtParts : JVal → JVal
  | JVal.obj kvs =>
    JVal.obj (kvs.map (fun kv => if kv.1 == "content" then (kv.1, dropInContent kv.2) else kv))
  | v => v

/-- An event with the given author carrying a single text part, the shape shared
by stage outputs and by the synthesized error event. -/
def mkTextEvent (author text : String) : JVal :=
  JVal.obj [("author", JVal.str author),
            ("content", JVal.obj [("parts", JVal.arr [JVal.obj [("text", JVal.str text)]])])]

/-- A structured judge verdict with status `fail`, as stored after a
successful JSON parse of the judge output. -/
def judgeFail : JVal :=
  JVal.obj [("status", JVal.str "fail"), ("feedback", JVal.str "need more movement")]

/-- A structured judge verdict with status `pass`. -/
def judgePass : JVal :=
  JVal.obj [("status", JVal.str "pass"), ("feedback", JVal.str "ok")]

theorem strJoin_append (a b : List String) : strJoin (a ++ b) = strJoin a ++ strJoin b := by
  induction a with
  | nil => simp [strJoin]
  | cons x xs ih => simp [strJoin, ih, String.append_assoc]

theorem processEvent_final_text (st : TState) (ev : JVal) :
    (processEvent st ev).final_text = st.final_text ++ eventText ev := by
  unfold processEvent accumStep progressStep markupStep
  dsimp only
  split <;> rfl

theorem processEvent_rendered (st : TState) (ev : JVal) :
    (processEvent st ev).rendered_content =
      (if truthyOpt (extract_google_html ev) && !truthyOpt st.rendered_content then
        extract_google_html ev else st.rendered_content) := by
  unfold processEvent accumStep progressStep markupStep
  dsimp only
  split <;> rfl

theorem processEvent_recs (st : TState) (ev : JVal) :
    (processEvent st ev).recs =
      (st.recs ++
        (if truthyOpt (extract_google_html ev) && !truthyOpt st.rendered_content then
          [Record.progress discoveryText] else [])) ++ stageRecs (authorStr ev) := by
  unfold processEvent accumStep progressStep markupStep
  dsimp only
  split <;> simp

theorem foldl_final_text (l : List JVal) (st : TState) :
    (l.foldl processEvent st).final_text = st.final_text ++ strJoin (l.map eventText) := by
  induction l generalizing st with
  | nil => simp [strJoin]
  | cons ev rest ih =>
    simp [List.foldl_cons, ih, processEvent_final_text, strJoin, String.append_assoc]

theorem runState_final_text (l : List JVal) :
    (runState l).final_text = strJoin (l.map eventText) := by
  have h := foldl_final_text l initTState
  simpa [runState, initTState] using h

theorem truthyFind_truthy (ev : JVal) (r : JVal) (h : truthyFind ev = some r) :
    r.truthy = true := by
  unfold truthyFind at h
  revert h
  cases extract_google_html ev with
  | none => intro h; cases h
  | some x =>
    dsimp only
    split
    · intro h; cases h; assumption
    · intro h; cases h

theorem truthyFind_isSome (ev : JVal) :
    (truthyFind ev).isSome = truthyOpt (extract_google_html ev) := by
  unfold truthyFind truthyOpt
  cases extract_google_html ev with
  | none => rfl
  | some x =>
    dsimp only
    split <;> simp_all

theorem renderedOk_processEvent (st : TState) (ev : JVal)
    (h : renderedOk st.rendered_content) : renderedOk (processEvent st ev).rendered_content := by
  intro r hr
  rw [processEvent_rendered] at hr
  split at hr
  · rename_i hc
    have h1 : truthyOpt (extract_google_html ev) = true := ((Bool.and_eq_true _ _).mp hc).1
    rw [hr] at h1
    simpa [truthyOpt] using h1
  · exact h r hr

theorem foldl_rendered (l : List JVal) (st : TState) (h : renderedOk st.rendered_content) :
    (l.foldl processEvent st).rendered_content =
      st.rendered_content.or (l.findSome? truthyFind) := by
  induction l generalizing st with
  | nil =>
    rcases hr : st.rendered_content with _ | r <;>
      simp [List.foldl_nil, hr, Option.or, List.findSome?]
  | cons ev rest ih =>
    rw [List.foldl_cons]
    rw [ih _ (renderedOk_processEvent st ev h)]
    rw [processEvent_rendered]
    rcases hr : st.rendered_content with _ | r
    · cases hf : truthyFind ev with
      | none =>
        have hc : truthyOpt (extract_google_html ev) = false := by
          have := truthyFind_isSome ev
          rw [hf] at this
          exact this.symm
        simp [hc, List.findSome?, hf, Option.or]
      | some x =>
        have hc : truthyOpt (extract_google_html ev) = true := by
          have := truthyFind_isSome ev
          rw [hf] at this
          exact this.symm
        have hx : extract_google_html ev = some x := by
          unfold truthyFind at hf
          revert hf
          cases extract_google_html ev with
          | none => intro hf; cases hf
          | some y =>
            dsimp only
            split
            · intro hf; cases hf; rfl
            · intro hf; cases hf
        have hxt : x.truthy = true := by
          rw [hx] at hc
          simpa [truthyOpt] using hc
        simp [hc, truthyOpt, List.findSome?, hf, hx, hxt, Option.or]
    · have ht : r.truthy = true := h r hr
      simp [truthyOpt, ht, Option.or]

theorem discoveryCount_append (a b : List Record) :
    discoveryCount (a ++ b) = discoveryCount a + discoveryCount b := by
  simp [discoveryCount, List.filter_append]

theorem discoveryCount_stageRecs (author : Option String) :
    discoveryCount (stageRecs author) = 0 := by
  unfold stageRecs
  split
  · decide
  · split
    · decide
    · split
      · decide
      · decide

theorem foldl_discovery (l : List JVal) (st : TState) (h : renderedOk st.rendered_content) :
    discoveryCount (l.foldl processEvent st).recs =
      discoveryCount st.recs +
        (match st.rendered_content with
         | some _ => 0
         | none => if (l.findSome? truthyFind).isSome then 1 else 0) := by
  induction l generalizing st with
  | nil =>
    rcases hr : st.rendered_content with _ | r <;>
      simp [List.foldl_nil, hr, List.findSome?]
  | cons ev rest ih =>
    rw [List.foldl_cons]
    rw [ih _ (renderedOk_processEvent st ev h)]
    rw [processEvent_recs, processEvent_rendered]
    rcases hr : st.rendered_content with _ | r
    · cases hf : truthyFind ev with
      | none =>
        have hc : truthyOpt (extract_google_html ev) = false := by
          have := truthyFind_isSome ev
          rw [hf] at this
          exact this.symm
        simp [hr, hc, hf, List.findSome?, discoveryCount_append, discoveryCount_stageRecs,
          show truthyOpt (none : Option JVal) = false from rfl]
      | some x =>
        have hc : truthyOpt (extract_google_html ev) = true := by
          have := truthyFind_isSome ev
          rw [hf] at this
          exact this.symm
        have hx : extract_google_html ev = some x := by
          unfold truthyFind at hf
          revert hf
          cases extract_google_html ev with
          | none => intro hf; cases hf
          | some y =>
            dsimp only
            split
            · intro hf; cases hf; rfl
            · intro hf; cases hf
        rw [hx] at hc
        simp [hr, hc, hx, hf, List.findSome?, discoveryCount_append, discoveryCount_stageRecs,
          show truthyOpt (none : Option JVal) = false from rfl]
        have hsplit : discoveryCount (Record.progress discoveryText :: stageRecs (authorStr ev)) =
            discoveryCount [Record.progress discoveryText] +
              discoveryCount (stageRecs (authorStr ev)) := by
          simpa using discoveryCount_append [Record.progress discoveryText] (stageRecs (authorStr ev))
        rw [hsplit, discoveryCount_stageRecs]
        decide
    · have ht : r.truthy = true := h r hr
      have hs : truthyOpt (some r) = true := by simpa [truthyOpt] using ht
      simp [hr, hs, discoveryCount_append, discoveryCount_stageRecs]

theorem renderedOk_init : renderedOk initTState.rendered_content := by
  intro r hr
  cases hr

theorem runState_rendered (l : List JVal) :
    (runState l).rendered_content = l.findSome? truthyFind := by
  have h := foldl_rendered l initTState renderedOk_init
  simpa [runState, initTState, Option.or] using h

theorem runState_discovery (l : List JVal) :
    discoveryCount (runState l).recs =
      (if (l.findSome? truthyFind).isSome then 1 else 0) := by
  have h := foldl_discovery l initTState renderedOk_init
  simpa [runState, initTState, discoveryCount] using h

theorem resultText_event_generator (l : List JVal) :
    resultText (event_generator l) =
      some (pyStrip (if pyStrip (runState l).final_text == "" then placeholderText
        else (runState l).final_text)) := by
  unfold resultText event_generator
  rw [List.getLast?_concat]

theorem resultRendered_event_generator (l : List JVal) :
    resultRendered (event_generator l) = some (runState l).rendered_content := by
  unfold resultRendered event_generator
  rw [List.getLast?_concat]

theorem discoveryCount_event_generator (l : List JVal) :
    discoveryCount (event_generator l) = discoveryCount (runState l).recs := by
  unfold event_generator
  rw [discoveryCount_append]
  simp [discoveryCount, isDiscovery]

theorem pyStripList_eq_nil_iff (cs : List Char) :
    pyStripList cs = [] ↔ cs.all isPySpace := by
  unfold pyStripList
  constructor
  · intro h
    rw [List.reverse_eq_nil_iff, List.dropWhile_eq_nil_iff] at h
    rw [List.all_eq_true]
    intro x hx
    conv at hx => rw [← List.takeWhile_append_dropWhile (p := isPySpace) (l := cs)]
    rcases List.mem_append.mp hx with h1 | h2
    · exact List.mem_takeWhile_imp h1
    · exact h x (List.mem_reverse.mpr h2)
  · intro h
    have hd : cs.dropWhile isPySpace = [] :=
      List.dropWhile_eq_nil_iff.mpr (fun x hx => List.all_eq_true.mp h x hx)
    simp [hd]

theorem pyStrip_eq_empty_iff (s : String) :
    pyStrip s = "" ↔ s.data.all isPySpace := by
  unfold pyStrip
  rw [show ("" : String) = ⟨[]⟩ from rfl]
  constructor
  · intro h
    exact (pyStripList_eq_nil_iff s.data).mp (congrArg String.data h)
  · intro h
    exact congrArg String.mk ((pyStripList_eq_nil_iff s.data).mpr h)

theorem assocGet_mapValueAt (kvs : List (String × JVal)) (key k : String) (g : JVal → JVal) :
    assocGet (kvs.map (fun kv => if kv.1 == key then (kv.1, g kv.2) else kv)) k =
      (if k == key then (assocGet kvs k).map g else assocGet kvs k) := by
  induction kvs with
  | nil => cases h : (k == key) <;> simp [assocGet, h]
  | cons kv rest ih =>
    simp only [List.map_cons]
    by_cases h1 : (kv.1 == key) = true
    · rw [if_pos h1]
      simp only [assocGet]
      by_cases h2 : (kv.1 == k) = true
      · have hkk : (k == key) = true := by
          have e1 : kv.1 = key := by simpa using h1
          have e2 : kv.1 = k := by simpa using h2
          simp [← e1, ← e2]
        rw [if_pos h2, if_pos hkk, if_pos h2]
        rfl
      · rw [if_neg h2, if_neg h2, ih]
    · rw [if_neg h1]
      simp only [assocGet]
      by_cases h2 : (kv.1 == k) = true
      · have hkk : (k == key) = false := by
          have e2 : kv.1 = k := by simpa using h2
          rcases hc : (k == key) with _ | _
          · rfl
          · exfalso
            have e3 : k = key := by simpa using hc
            exact h1 (by simp [e2, e3])
        rw [if_pos h2, if_neg (by simp [hkk]), if_pos h2]
      · rw [if_neg h2, if_neg h2, ih]

theorem truthy_dropInContent (c : JVal) : (dropInContent c).truthy = c.truthy := by
  cases c with
  | obj ckvs => cases ckvs <;> rfl
  | null => rfl
  | bool b => rfl
  | num n => rfl
  | str s => rfl
  | arr xs => rfl

theorem authorStr_dropThoughtParts (ev : JVal) :
    authorStr (dropThoughtParts ev) = authorStr ev := by
  cases ev with
  | obj kvs =>
    simp only [dropThoughtParts, authorStr]
    rw [assocGet_mapValueAt]
    simp
  | null => rfl
  | bool b => rfl
  | num n => rfl
  | str s => rfl
  | arr xs => rfl

theorem partsOf_dropThoughtParts (ev : JVal) :
    partsOf (dropThoughtParts ev) = (partsOf ev).filter (fun p => !isThoughtPart p) := by
  cases ev with
  | obj kvs =>
    simp only [dropThoughtParts, partsOf]
    rw [assocGet_mapValueAt]
    simp only [show (("content" : String) == "content") = true from rfl, if_true]
    cases hc : assocGet kvs "content" with
    | none => simp
    | some c =>
      simp only [Option.map]
      rw [truthy_dropInContent]
      by_cases ht : c.truthy = true
      · simp only [ht, if_true]
        cases c with
        | obj ckvs =>
          simp only [dropInContent]
          rw [assocGet_mapValueAt]
          simp only [show (("parts" : String) == "parts") = true from rfl, if_true]
          cases hp : assocGet ckvs "parts" with
          | none => simp
          | some p =>
            simp only [Option.map]
            cases p <;> simp [dropInParts]
        | null => simp [dropInContent]
        | bool b => simp [dropInContent]
        | num n => simp [dropInContent]
        | str s => simp [dropInContent]
        | arr xs => simp [dropInContent]
      · simp [ht]
  | null => rfl
  | bool b => rfl
  | num n => rfl
  | str s => rfl
  | arr xs => rfl
theorem strJoin_filter_thought (author : Option String) (parts : List JVal) :
    strJoin (((parts.filter (fun p => !isThoughtPart p)).map (partContribution author))) =
      strJoin (parts.map (partContribution author)) := by
  induction parts with
  | nil => rfl
  | cons p rest ih =>
    by_cases hp : isThoughtPart p = true
    · have hcontrib : partContribution author p = "" := by
        unfold partContribution
        simp [hp]
      simp [List.filter, hp, ih, strJoin, hcontrib]
    · simp [List.filter, hp, ih, strJoin]

theorem eventText_dropThoughtParts (ev : JVal) :
    eventText (dropThoughtParts ev) = eventText ev := by
  unfold eventText
  rw [authorStr_dropThoughtParts, partsOf_dropThoughtParts, strJoin_filter_thought]

theorem strJoin_all_empty (f : JVal → String) (xs : List JVal)
    (h : ∀ x ∈ xs, f x = "") : strJoin (xs.map f) = "" := by
  induction xs with
  | nil => rfl
  | cons x rest ih =>
    rw [List.map_cons]
    rw [show strJoin (f x :: List.map f rest) = f x ++ strJoin (List.map f rest) from rfl]
    rw [h x (List.mem_cons_self x rest), ih (fun y hy => h y (List.mem_cons_of_mem x hy))]
    rfl

theorem pyStrip_placeholder : pyStrip placeholderText = placeholderText := by decide

/-- C1: for every event sequence consumed by the transcoder, the captured
markup equals the first truthy value that `extract_google_html` finds across
the run (documented precedence is the body of `extract_google_html`); it is
never replaced by a later find (append form), and the number of discovery
progress records over every prefix is one exactly when the prefix already
contains a find, so exactly one such record is emitted, on the first find. -/
theorem C1_markup_first_writer_wins (events : List JVal) :
    resultRendered (event_generator events) = some (events.findSome? truthyFind)
  ∧ discoveryCount (event_generator events) =
      (if (events.findSome? truthyFind).isSome then 1 else 0)
  ∧ (∀ k : Nat, (runState (events.take k)).rendered_content =
      (events.take k).findSome? truthyFind
    ∧ discoveryCount (runState (events.take k)).recs =
        (if ((events.take k).findSome? truthyFind).isSome then 1 else 0))
  ∧ (∀ later : List JVal, (runState (events ++ later)).rendered_content =
      ((runState events).rendered_content).or ((runState later).rendered_content)) := by
  refine ⟨?_, ?_, ?_, ?_⟩
  · rw [resultRendered_event_generator, runState_rendered]
  · rw [discoveryCount_event_generator, runState_discovery]
  · intro k
    exact ⟨runState_rendered _, runState_discovery _⟩
  · intro later
    rw [runState_rendered, runState_rendered, runState_rendered, List.findSome?_append]

/-- C4: a part whose internal-reasoning flag is set never contributes to the
accumulated result text: deleting every flagged part from every event changes
neither the accumulator nor the text of the final result record. -/
theorem C4_thought_never_contributes (events : List JVal) :
    (runState (events.map dropThoughtParts)).final_text = (runState events).final_text
  ∧ resultText (event_generator (events.map dropThoughtParts)) =
      resultText (event_generator events) := by
  have hacc : (runState (events.map dropThoughtParts)).final_text =
      (runState events).final_text := by
    rw [runState_final_text, runState_final_text, List.map_map]
    congr 1
    exact List.map_eq_map_iff.mpr (fun ev _ => eventText_dropThoughtParts ev)
  refine ⟨hacc, ?_⟩
  rw [resultText_event_generator, resultText_event_generator, hacc]

/-- C5: after exhausting the event sequence, the emitted result text is the
fixed placeholder when the accumulated text is empty or whitespace-only, and
the accumulated text with surrounding whitespace stripped otherwise. -/
theorem C5_placeholder_on_blank (events : List JVal) :
    resultText (event_generator events) =
      some (if (runState events).final_text.data.all isPySpace then
        "The story is taking shape..." else pyStrip (runState events).final_text) := by
  rw [resultText_event_generator]
  by_cases h : (runState events).final_text.data.all isPySpace = true
  · have he : pyStrip (runState events).final_text = "" := (pyStrip_eq_empty_iff _).mpr h
    rw [he]
    simp only [h, if_true]
    rw [show (("" : String) == "") = true from rfl, if_pos rfl]
    rw [pyStrip_placeholder]
    rfl
  · have he : ¬pyStrip (runState events).final_text = "" :=
      fun e => h ((pyStrip_eq_empty_iff _).mp e)
    have hb : (pyStrip (runState events).final_text == "") = false :=
      beq_eq_false_iff_ne.mpr he
    rw [hb]
    simp [h]

theorem partContribution_not_allowed (author : Option String) (part : JVal)
    (h : allowAuthor author = false) : partContribution author part = "" := by
  unfold partContribution
  split
  · rfl
  · split
    · rfl
    · split
      · rfl
      · split
        · rfl
        · rw [h]
          simp

theorem eventText_not_allowed (ev : JVal) (h : allowAuthor (authorStr ev) = false) :
    eventText ev = "" := by
  unfold eventText
  exact strJoin_all_empty _ _ (fun p _ => partContribution_not_allowed _ p h)

/-- C6 counterexample: an event authored by the root pipeline agent defined in
the orchestrator (`course_creation_pipeline`) carrying a clean story text is
not accumulated: the accumulator stays empty and the result text degrades to
the placeholder instead of the story text. -/
theorem C6_counterexample_root_agent_dropped :
    authorStr (mkTextEvent root_agent_name "Once upon a time, a fox.") = some root_agent_name
  ∧ (runState [mkTextEvent root_agent_name "Once upon a time, a fox."]).final_text = ""
  ∧ resultText (event_generator [mkTextEvent root_agent_name "Once upon a time, a fox."]) =
      some "The story is taking shape..." := by
  have hacc : (runState [mkTextEvent root_agent_name "Once upon a time, a fox."]).final_text = "" := by
    rw [runState_final_text]
    decide
  refine ⟨by decide, hacc, ?_⟩
  rw [resultText_event_generator, hacc]
  decide

/-- C6 (amended): only the authors on the literal allow-list
`content_builder` and `gemini_tales_pipeline` ever contribute to the
accumulator; every other author, in particular the root pipeline agent
`course_creation_pipeline` defined in the orchestrator, never contributes. -/
theorem C6_allowlist_exact :
    (∀ (st : TState) (ev : JVal), allowAuthor (authorStr ev) = false →
      (processEvent st ev).final_text = st.final_text)
  ∧ allowAuthor (some "content_builder") = true
  ∧ allowAuthor (some "gemini_tales_pipeline") = true
  ∧ allowAuthor (some root_agent_name) = false
  ∧ (runState [mkTextEvent "content_builder" "Once upon a time, a fox."]).final_text =
      "Once upon a time, a fox." := by
  refine ⟨?_, by decide, by decide, by decide, ?_⟩
  · intro st ev h
    rw [processEvent_final_text, eventText_not_allowed ev h, String.append_empty]
  · rw [runState_final_text]
    decide

/-- C6 witness: the amended theorem applied to a concrete non-allow-listed
author. -/
theorem C6_allowlist_exact_witness :
    (processEvent initTState (mkTextEvent "researcher" "hello")).final_text =
      initTState.final_text :=
  C6_allowlist_exact.1 initTState (mkTextEvent "researcher" "hello") (by decide)

theorem errorText_ne_empty (details : String) : (("Error " ++ details) == "") = false := by
  rw [beq_eq_false_iff_ne]
  intro h
  have hl := congrArg String.length h
  rw [String.length_append] at hl
  rw [show ("Error " : String).length = 6 from rfl] at hl
  rw [show ("" : String).length = 0 from rfl] at hl
  omega

theorem eventText_mkErrorEvent (agent_name details : String) :
    eventText (mkErrorEvent agent_name details) =
      (if allowAuthor (some agent_name) && !is_technical ("Error " ++ details) then
        "Error " ++ details else "") := by
  have hparts : partsOf (mkErrorEvent agent_name details) =
      [JVal.obj [("text", JVal.str ("Error " ++ details))]] := rfl
  have hauthor : authorStr (mkErrorEvent agent_name details) = some agent_name := rfl
  unfold eventText
  rw [hparts, hauthor, List.map_cons, List.map_nil]
  rw [show strJoin [partContribution (some agent_name)
        (JVal.obj [("text", JVal.str ("Error " ++ details))])] =
      partContribution (some agent_name)
        (JVal.obj [("text", JVal.str ("Error " ++ details))]) ++ "" from rfl]
  rw [String.append_empty]
  unfold partContribution
  rw [show isThoughtPart (JVal.obj [("text", JVal.str ("Error " ++ details))]) = false from rfl]
  rw [show partText (JVal.obj [("text", JVal.str ("Error " ++ details))]) =
      some ("Error " ++ details) from rfl]
  simp only [Bool.false_eq_true, if_false, errorText_ne_empty]
  by_cases ht : is_technical ("Error " ++ details) = true
  · simp [ht]
  · by_cases ha : allowAuthor (some agent_name) = true
    · simp [ht, ha]
    · simp [ht, ha]

theorem pyStrip_errorText_ne_empty (details : String) :
    (pyStrip ("Error " ++ details) == "") = false := by
  rw [beq_eq_false_iff_ne]
  intro h
  have hall := (pyStrip_eq_empty_iff _).mp h
  rw [show ("Error " ++ details).data = "Error ".data ++ details.data from rfl] at hall
  rw [List.all_append] at hall
  have : ("Error ".data.all isPySpace) = false := by decide
  rw [this] at hall
  simp at hall

/-- C8: when the stage RPC responds with an error, the controller yields
exactly one event, authored by the queried stage, whose content is a single
text part `Error <details>`; that event then flows through the transcoder
under the same filter rules as any other event (author allow-list and
technical-payload filter), never raising a fatal error. -/
theorem C8_stage_rpc_error_event (agent_name details : String) :
    query_adk_sever agent_name (SSEResponse.error details) =
      [mkErrorEvent agent_name details]
  ∧ authorStr (mkErrorEvent agent_name details) = some agent_name
  ∧ partsOf (mkErrorEvent agent_name details) =
      [JVal.obj [("text", JVal.str ("Error " ++ details))]]
  ∧ (runState (query_adk_sever agent_name (SSEResponse.error details))).final_text =
      (if allowAuthor (some agent_name) && !is_technical ("Error " ++ details) then
        "Error " ++ details else "")
  ∧ resultText (event_generator (query_adk_sever agent_name (SSEResponse.error details))) =
      some (if allowAuthor (some agent_name) && !is_technical ("Error " ++ details) then
        pyStrip ("Error " ++ details) else "The story is taking shape...") := by
  have hacc : (runState (query_adk_sever agent_name (SSEResponse.error details))).final_text =
      (if allowAuthor (some agent_name) && !is_technical ("Error " ++ details) then
        "Error " ++ details else "") := by
    rw [show query_adk_sever agent_name (SSEResponse.error details) =
        [mkErrorEvent agent_name details] from rfl]
    rw [runState_final_text, List.map_cons, List.map_nil]
    rw [show strJoin [eventText (mkErrorEvent agent_name details)] =
        eventText (mkErrorEvent agent_name details) ++ "" from rfl]
    rw [String.append_empty, eventText_mkErrorEvent]
  refine ⟨rfl, rfl, rfl, hacc, ?_⟩
  rw [resultText_event_generator, hacc]
  by_cases hc : (allowAuthor (some agent_name) && !is_technical ("Error " ++ details)) = true
  · rw [if_pos hc, if_pos hc, pyStrip_errorText_ne_empty]
    simp
  · rw [if_neg hc, if_neg hc]
    rw [show (pyStrip "" == "") = true from rfl, if_pos rfl, pyStrip_placeholder]
    rfl

theorem loopTrace_count_builder (f : Nat → JVal) (rem i : Nat) :
    (loopTrace f i rem).count StageCall.builder = 0 := by
  induction rem generalizing i with
  | zero => rfl
  | succ rem ih =>
    rw [loopTrace]
    by_cases hp : is_pass (some (f i)) = true
    · simp [hp, List.count_append, List.count_cons]
    · simp [hp, List.count_append, List.count_cons, ih]

theorem loopTrace_count_researcher_le (f : Nat → JVal) (rem i : Nat) :
    (loopTrace f i rem).count StageCall.researcher ≤ rem := by
  induction rem generalizing i with
  | zero => simp [loopTrace]
  | succ rem ih =>
    rw [loopTrace]
    by_cases hp : is_pass (some (f i)) = true
    · simp [hp, List.count_append, List.count_cons]
    · simp only [hp, if_false, Bool.false_eq_true]
      rw [List.count_append]
      have := ih (i + 1)
      simp [List.count_cons]
      omega

/-- C2: for every sequence of judge outputs, the research loop runs at most
`max_iterations` (3) iterations, and the pipeline then invokes the builder
stage exactly once, as the final stage, with no hard failure on exhaustion. -/
theorem C2_loop_bounded_builder_once (f : Nat → JVal) :
    (pipelineTrace f).count StageCall.builder = 1
  ∧ (pipelineTrace f).count StageCall.researcher ≤ max_iterations
  ∧ (pipelineTrace f).getLast? = some StageCall.builder
  ∧ max_iterations = 3 := by
  refine ⟨?_, ?_, ?_, rfl⟩
  · rw [pipelineTrace, List.count_append, loopTrace_count_builder]
    rfl
  · rw [pipelineTrace, List.count_append]
    have := loopTrace_count_researcher_le f max_iterations 0
    simp [List.count_cons]
    omega
  · rw [pipelineTrace, List.getLast?_concat]

theorem loopTrace_count_stop (f : Nat → JVal) (rem i t : Nat)
    (hlt : t < rem)
    (hprev : ∀ j, j < t → is_pass (some (f (i + j))) = false)
    (hp : is_pass (some (f (i + t))) = true) :
    (loopTrace f i rem).count StageCall.researcher = t + 1
  ∧ (loopTrace f i rem).count StageCall.judge = t + 1 := by
  induction rem generalizing i t with
  | zero => omega
  | succ rem ih =>
    rw [loopTrace]
    cases t with
    | zero =>
      rw [show i + 0 = i from rfl] at hp
      simp [hp, List.count_append, List.count_cons]
    | succ t =>
      have h0 : is_pass (some (f i)) = false := by
        have := hprev 0 (Nat.succ_pos t)
        simpa using this
      have hrec := ih (i + 1) t (by omega)
        (fun j hj => by
          have := hprev (j + 1) (by omega)
          rw [show i + (j + 1) = i + 1 + j by omega] at this
          exact this)
        (by rw [show i + 1 + t = i + (t + 1) by omega]; exact hp)
      simp only [h0, Bool.false_eq_true, if_false]
      rw [List.count_append, List.count_append]
      simp [List.count_cons, hrec.1, hrec.2]
      omega

/-- C3: the escalation checker reads the stored judge feedback; a structured
status `fail` keeps the loop going while a structured status `pass` escalates
on that iteration, so when the first pass verdict arrives at iteration `i`
(zero-based) the researcher and judge each run exactly `i + 1` times and are
not invoked again; a constant fail verdict exhausts all three iterations and a
first-iteration pass verdict stops after one. -/
theorem C3_pass_escalates_fail_continues :
    (∀ (f : Nat → JVal) (i : Nat), i < max_iterations →
      (∀ j, j < i → is_pass (some (f j)) = false) → is_pass (some (f i)) = true →
      (pipelineTrace f).count StageCall.researcher = i + 1
      ∧ (pipelineTrace f).count StageCall.judge = i + 1)
  ∧ is_pass (some judgeFail) = false
  ∧ is_pass (some judgePass) = true
  ∧ (pipelineTrace (fun _ => judgeFail)).count StageCall.researcher = max_iterations
  ∧ (pipelineTrace (fun _ => judgePass)).count StageCall.researcher = 1 := by
  refine ⟨?_, by decide, by decide, by decide, by decide⟩
  intro f i hi hprev hp
  have h := loopTrace_count_stop f max_iterations 0 i hi
    (fun j hj => by simpa using hprev j hj) (by simpa using hp)
  constructor
  · rw [pipelineTrace, List.count_append, h.1]
    rfl
  · rw [pipelineTrace, List.count_append, h.2]
    rfl

/-- C3 witness: a pass verdict at the first iteration stops the loop after one
researcher and one judge invocation. -/
theorem C3_pass_escalates_witness :
    (pipelineTrace (fun _ => judgePass)).count StageCall.researcher = 0 + 1
  ∧ (pipelineTrace (fun _ => judgePass)).count StageCall.judge = 0 + 1 :=
  C3_pass_escalates_fail_continues.1 (fun _ => judgePass) 0 (by decide)
    (fun j hj => absurd hj (Nat.not_lt_zero j)) (by decide)

/-- C10: on raw-text feedback the checker escalates exactly when the text
contains the spaced marker `"status": "pass"`; the minified spelling
`"status":"pass"` is treated as non-pass, so a raw minified pass verdict lets
the loop run to exhaustion while the spaced spelling escalates immediately. -/
theorem C10_minified_pass_not_detected :
    (∀ s : String, is_pass (some (JVal.str s)) = decide (pass_marker.data <:+: s.data))
  ∧ pass_marker = "\"status\": \"pass\""
  ∧ is_pass (some (JVal.str "\x7b\"status\":\"pass\",\"feedback\":\"ok\"\x7d")) = false
  ∧ is_pass (some (JVal.str "\x7b\"status\": \"pass\", \"feedback\": \"ok\"\x7d")) = true
  ∧ (pipelineTrace (fun _ => JVal.str "\x7b\"status\":\"pass\",\"feedback\":\"ok\"\x7d")).count
      StageCall.researcher = max_iterations
  ∧ (pipelineTrace (fun _ => JVal.str "\x7b\"status\": \"pass\", \"feedback\": \"ok\"\x7d")).count
      StageCall.researcher = 1 := by
  exact ⟨fun s => rfl, rfl, by decide, by decide, by decide, by decide⟩

theorem find?_append_some {α : Type} (p : α → Bool) (l₁ l₂ : List α) (a : α)
    (h : l₁.find? p = some a) : (l₁ ++ l₂).find? p = some a := by
  induction l₁ with
  | nil => cases h
  | cons x rest ih =>
    rw [List.cons_append]
    rw [List.find?] at h ⊢
    cases hp : p x with
    | true => rw [hp] at h; simpa using h
    | false => rw [hp] at h; simp only [hp]; exact ih h

theorem find?_append_none {α : Type} (p : α → Bool) (l₁ l₂ : List α)
    (h : l₁.find? p = none) : (l₁ ++ l₂).find? p = l₂.find? p := by
  induction l₁ with
  | nil => rfl
  | cons x rest ih =>
    rw [List.cons_append, List.find?] at *
    cases hp : p x with
    | true => rw [hp] at h; simp at h
    | false => rw [hp] at h; simp only [hp]; exact ih h

theorem cacheGet_preserved (st : ClientCache) (origin o : String) (c : Nat)
    (h : cacheGet st o = some c) : cacheGet (get_client st origin).2.1 o = some c := by
  unfold get_client
  cases hg : cacheGet st origin with
  | some x => exact h
  | none =>
    unfold cacheGet at h ⊢
    dsimp only
    cases hf : st.clients.find? (fun kv => kv.1 == o) with
    | none => rw [hf] at h; cases h
    | some kv =>
      rw [hf] at h
      rw [find?_append_some _ _ _ kv hf]
      exact h

theorem cacheGet_new_other (st : ClientCache) (origin o : String)
    (hne : (origin == o) = false) (h : cacheGet st o = none) :
    cacheGet (get_client st origin).2.1 o = none := by
  unfold get_client
  cases hg : cacheGet st origin with
  | some x => exact h
  | none =>
    unfold cacheGet at h ⊢
    dsimp only
    cases hf : st.clients.find? (fun kv => kv.1 == o) with
    | some kv => rw [hf] at h; cases h
    | none =>
      rw [find?_append_none _ _ _ hf]
      simp [List.find?, hne]

theorem get_client_stores (st : ClientCache) (origin : String) :
    cacheGet (get_client st origin).2.1 origin = some (get_client st origin).1 := by
  unfold get_client
  cases hg : cacheGet st origin with
  | some x => exact hg
  | none =>
    unfold cacheGet at hg ⊢
    dsimp only
    cases hf : st.clients.find? (fun kv => kv.1 == origin) with
    | some kv => rw [hf] at hg; cases hg
    | none =>
      rw [find?_append_none _ _ _ hf]
      simp [List.find?]

theorem get_client_hit (st : ClientCache) (origin : String) (c : Nat)
    (h : cacheGet st origin = some c) : get_client st origin = (c, st, false) := by
  unfold get_client
  rw [h]

theorem get_client_miss (st : ClientCache) (origin : String)
    (h : cacheGet st origin = none) :
    get_client st origin =
      (st.created, ⟨st.clients ++ [(origin, st.created)], st.created + 1⟩, true) := by
  unfold get_client
  rw [h]

theorem creationsFor_cons (origin req : String) (c : Nat) (b : Bool)
    (log : List (String × Nat × Bool)) :
    creationsFor origin ((req, c, b) :: log) =
      (if req == origin && b then 1 else 0) + creationsFor origin log := by
  unfold creationsFor
  rw [List.filter]
  dsimp only
  cases h : (req == origin && b) with
  | false => simp [h]
  | true =>
    simp [h]
    omega

theorem runGets_creations_le (reqs : List String) (st : ClientCache) (origin : String) :
    creationsFor origin (runGets st reqs).2 ≤
      (match cacheGet st origin with | some _ => 0 | none => 1) := by
  induction reqs generalizing st with
  | nil =>
    rw [show (runGets st []).2 = [] from rfl]
    rw [show creationsFor origin [] = 0 from rfl]
    split <;> omega
  | cons req rest ih =>
    rw [runGets]
    dsimp only
    rw [creationsFor_cons]
    cases hk : (req == origin) with
    | false =>
      simp only [Bool.false_and, if_false, Bool.false_eq_true, Nat.zero_add]
      cases hg : cacheGet st origin with
      | some c =>
        have hp : cacheGet (get_client st req).2.1 origin = some c :=
          cacheGet_preserved st req origin c hg
        have hr := ih (get_client st req).2.1
        rw [hp] at hr
        exact hr
      | none =>
        have hp : cacheGet (get_client st req).2.1 origin = none :=
          cacheGet_new_other st req origin hk hg
        have hr := ih (get_client st req).2.1
        rw [hp] at hr
        exact hr
    | true =>
      have heq : req = origin := by simpa using hk
      subst heq
      cases hg : cacheGet st req with
      | some c =>
        rw [get_client_hit st req c hg]
        have hr := ih st
        rw [hg] at hr
        simpa using hr
      | none =>
        have hr := ih (get_client st req).2.1
        rw [get_client_stores st req] at hr
        simp only [Nat.le_zero] at hr
        show (if (true && (get_client st req).2.2) = true then 1 else 0) +
            creationsFor req (runGets (get_client st req).2.1 rest).2 ≤ 1
        split <;> omega

/-- C9: the authenticated-client cache is populated at most once per origin for
the process lifetime and never invalidated: over any call sequence from the
empty cache an origin sees at most one creation; a call stores the returned
handle under its origin; a later call with the same origin returns exactly the
stored handle, the unchanged cache and no creation; and existing entries are
never removed or replaced by any call. -/
theorem C9_cache_populated_once (st : ClientCache) (origin : String) :
    (∀ reqs : List String, creationsFor origin (runGets emptyCache reqs).2 ≤ 1)
  ∧ cacheGet (get_client st origin).2.1 origin = some (get_client st origin).1
  ∧ get_client (get_client st origin).2.1 origin =
      ((get_client st origin).1, (get_client st origin).2.1, false)
  ∧ (∀ (o : String) (c : Nat), cacheGet st o = some c →
      cacheGet (get_client st origin).2.1 o = some c) := by
  refine ⟨?_, get_client_stores st origin, ?_, ?_⟩
  · intro reqs
    have h := runGets_creations_le reqs emptyCache origin
    rw [show cacheGet emptyCache origin = none from rfl] at h
    exact h
  · exact get_client_hit _ origin _ (get_client_stores st origin)
  · intro o c h
    exact cacheGet_preserved st origin o c h

/-- C9 witness: a stored entry survives a call for a different origin. -/
theorem C9_cache_populated_once_witness :
    cacheGet (get_client ⟨[("a", 0)], 1⟩ "b").2.1 "a" = some 0 :=
  (C9_cache_populated_once ⟨[("a", 0)], 1⟩ "b").2.2.2 "a" 0 (by decide)
